import Mathlib

/-!
Verification development for the taskback backend (backend/index.ts).

The embedding models the real-time synchronization core of the server:
the MongoDB-backed stores (users are irrelevant here; boards, teams and
tasks matter), the per-board connection registry, the websocket
connection handshake, the REST task mutation handlers that broadcast
events, and the websocket reorder handler.

Modelling conventions:
- MongoDB collections are lists of documents in insertion order.
  `findOne` is the first match, `updateOne` updates the first match,
  `deleteOne` deletes the first match.
- `find(q).sort(k)` is modelled RELATIONALLY where the sort key can tie:
  MongoDB does not specify the relative order of documents with equal
  sort keys, so a sorted read is any permutation of the matching
  documents that is ordered by the key.  Where the key is unique the
  read is provably unique (proved below).
- The `column` field is stored as a string in MongoDB, so
  `sort(column: 1)` compares the strings in binary order:
  "done" < "inprogress" < "todo" < "unsure".  `Column.rank` fixes that
  order and a lemma grounds it against character-level comparison of
  the stored strings.
- JavaScript truthiness on optional strings (absent or "" is falsy) is
  modelled by `strTruthy`.
- Machine integers: `order` and `createdAt` are IEEE doubles holding
  integer values in the source; every operation performed on them here
  (comparison, +1) is exact on integers of any realistic magnitude, so
  they are modelled as `Int`.
-/

namespace Taskback

/-- Task lifecycle column, the fixed enumeration of index.ts. -/
inductive Column where
  | todo
  | inprogress
  | done
  | unsure
deriving DecidableEq

/-- String stored in MongoDB for each column value (index.ts stores the
literal string of the union type). -/
def Column.str : Column → String
  | .todo => "todo"
  | .inprogress => "inprogress"
  | .done => "done"
  | .unsure => "unsure"

/-- Rank of the stored column string under binary (UTF-8 code point)
string comparison, which is what MongoDB's sort uses on the string
field: "done" < "inprogress" < "todo" < "unsure". -/
def Column.rank : Column → Nat
  | .done => 0
  | .inprogress => 1
  | .todo => 2
  | .unsure => 3

/-- Task document of the tasks collection (index.ts interface Task). -/
structure Task where
  id : String
  title : String
  description : String
  column : Column
  createdAt : Int
  order : Int
  boardId : String
deriving DecidableEq

/-- Board document (index.ts interface Board). -/
structure Board where
  id : String
  name : String
  teamId : Option String
  ownerId : String
  isPersonal : Bool
deriving DecidableEq

/-- Team document (index.ts interface Team). -/
structure Team where
  id : String
  name : String
  ownerId : String
  members : List String
deriving DecidableEq

/-- The persistent state relevant to the synchronization core: the
boards, teams and tasks collections. -/
structure Store where
  boards : List Board
  teams : List Team
  tasks : List Task
deriving DecidableEq

/-- Mongo findOne on the boards collection keyed by the id field. -/
def findBoard (s : Store) (bid : String) : Option Board :=
  s.boards.find? (fun b => b.id == bid)

/-- Mongo findOne existence for teamsCol.findOne with an id and members
filter: matches a team whose id equals the given team id and whose
members array contains the user.  A null teamId matches nothing since
every stored team has a string id. -/
def teamGrants (s : Store) (teamId : Option String) (uid : String) : Bool :=
  match teamId with
  | some tid => s.teams.any (fun tm => tm.id == tid && tm.members.contains uid)
  | none => false

/-- Access check of the websocket reorder handler (index.ts lines
815-820): personal boards require ownership, otherwise membership of
the team named by board.teamId is required (a null teamId finds no
team, hence no access). -/
def reorderAccess (s : Store) (uid : String) (b : Board) : Bool :=
  if b.isPersonal then b.ownerId == uid else teamGrants s b.teamId uid

/-- Access check of the REST task handlers (index.ts): a personal board
requires ownership; a non-personal board with a teamId requires team
membership; a non-personal board without a teamId passes both guards. -/
def restAccess (s : Store) (uid : String) (b : Board) : Bool :=
  if b.isPersonal then b.ownerId == uid
  else
    match b.teamId with
    | some tid => teamGrants s (some tid) uid
    | none => true

/-- JavaScript truthiness of an optional string: absent and "" are
falsy. -/
def strTruthy : Option String → Bool
  | none => false
  | some s => !(s == "")

/-- Sort key used by find(boardId).sort(column: 1, order: 1): the
stored column string (via its binary rank) then the order field. -/
def taskKey (t : Task) : Nat × Int :=
  (t.column.rank, t.order)

/-- Non-strict (column, order) key order between tasks. -/
def keyLE (a b : Task) : Prop :=
  a.column.rank < b.column.rank ∨ (a.column.rank = b.column.rank ∧ a.order ≤ b.order)

instance (a b : Task) : Decidable (keyLE a b) := by
  unfold keyLE; infer_instance

/-- Strict (column, order) key order between tasks. -/
def keyLT (a b : Task) : Prop :=
  a.column.rank < b.column.rank ∨ (a.column.rank = b.column.rank ∧ a.order < b.order)

instance : IsAntisymm Task keyLT := by
  constructor
  intro a b hab hba
  exfalso
  rcases hab with h₁ | ⟨h₁, h₂⟩ <;> rcases hba with h₃ | ⟨h₃, h₄⟩ <;> omega

/-- Canonical read of a board's tasks, the model of
tasksCol.find(boardId).sort(column: 1, order: 1).toArray() in
index.ts: some list that is a permutation of the board's stored tasks
and is ordered by the (column, order) key.  Relational because MongoDB
leaves the relative order of documents with equal sort keys
unspecified and the query uses no further tie-break. -/
def isCanonicalRead (ts : List Task) (bid : String) (l : List Task) : Prop :=
  List.Perm l (ts.filter (fun t => t.boardId == bid)) ∧ l.Pairwise keyLE

instance (ts : List Task) (bid : String) (l : List Task) :
    Decidable (isCanonicalRead ts bid l) := by
  unfold isCanonicalRead; infer_instance

/-- Mongo updateOne: update the first document matching the filter,
leave everything else in place. -/
def updateFirst (p : α → Bool) (f : α → α) : List α → List α
  | [] => []
  | x :: xs => if p x then f x :: xs else x :: updateFirst p f xs

/-- Mongo deleteOne: delete the first document matching the filter. -/
def deleteFirst (p : α → Bool) : List α → List α
  | [] => []
  | x :: xs => if p x then xs else x :: deleteFirst p xs

/-- One tuple of a reorder batch: the fields of the inbound task
objects the handler actually reads (id, column, order). -/
structure ReorderTuple where
  id : String
  column : Column
  order : Int
deriving DecidableEq

/-- Inbound reorder message: the claimed board and the batch. -/
structure ReorderMsg where
  boardId : Option String
  tasks : List ReorderTuple
deriving DecidableEq

/-- Websocket connection as the server sees it: process-local
identifier, the authenticated user (set at handshake), the board the
socket was scoped to at handshake, and the transport readyState
(1 = OPEN). -/
structure Conn where
  connId : Nat
  userId : Option String
  boardId : Option String
  readyState : Nat
deriving DecidableEq

/-- The per-board connection registry boardConnections:
Map(boardId, Set(connection)), as an association list in insertion
order. -/
abbrev Registry := List (String × List Conn)

/-- Enumerate the connections registered under a board
(boardConnections.get(boardId), empty when the key is absent). -/
def getConns (reg : Registry) (bid : String) : List Conn :=
  (List.lookup bid reg).getD []

/-- Add a connection to a board's set, creating the set if absent
(index.ts lines 791-794). -/
def addConn : Registry → String → Conn → Registry
  | [], bid, c => [(bid, [c])]
  | (b, cs) :: rest, bid, c =>
    if b == bid then (b, cs ++ [c]) :: rest
    else (b, cs) :: addConn rest bid c

/-- Outbound websocket message shapes of index.ts. -/
inductive Message where
  | init (tasks : List Task)
  | task_created (task : Task) (boardId : String)
  | task_updated (task : Option Task) (boardId : String)
  | task_deleted (id : String) (boardId : String)
  | tasks_reorder (tasks : List Task) (boardId : String)
deriving DecidableEq

/-- Board identifier carried by a message payload, none for init. -/
def Message.boardOf : Message → Option String
  | .init _ => none
  | .task_created _ b => some b
  | .task_updated _ b => some b
  | .task_deleted _ b => some b
  | .tasks_reorder _ b => some b

/-- broadcastToBoard (index.ts lines 743-753): deliver the payload to
every connection in the board's set whose readyState is OPEN, as a
list of (connection id, message) deliveries. -/
def broadcastToBoard (reg : Registry) (bid : String) (m : Message) : List (Nat × Message) :=
  ((getConns reg bid).filter (fun c => c.readyState == 1)).map (fun c => (c.connId, m))

/-- Board lookup plus access check of the reorder handler: the board
must exist and reorderAccess must grant the user. -/
def boardAccessOk (s : Store) (uid bid : String) : Bool :=
  match findBoard s bid with
  | some board => reorderAccess s uid board
  | none => false

/-- Authorization of the websocket reorder handler (index.ts lines
811-822): both ws.userId and msg.boardId must be truthy, the board
must exist, and reorderAccess must hold. -/
def reorderAuth (s : Store) (ws : Conn) (msg : ReorderMsg) : Bool :=
  strTruthy ws.userId && strTruthy msg.boardId &&
    boardAccessOk s (ws.userId.getD "") (msg.boardId.getD "")

/-- One tuple of the reorder loop (index.ts lines 826-831):
updateOne(filter id and boardId, set column and order). -/
def applyTuple (bid : String) (ts : List Task) (u : ReorderTuple) : List Task :=
  updateFirst (fun t => t.id == u.id && t.boardId == bid)
    (fun t => { t with column := u.column, order := u.order }) ts

/-- The whole reorder batch applied in submission order. -/
def applyReorder (s : Store) (bid : String) (us : List ReorderTuple) : Store :=
  { s with tasks := us.foldl (applyTuple bid) s.tasks }

/-- The websocket reorder handler (index.ts lines 807-848) as a
relation from (store, registry, connection, message) to the resulting
store and the outbound deliveries.  Authorized requests apply the
batch, take a canonical read of the post-write store (relational, see
isCanonicalRead) and broadcast it; everything else is silently
dropped.  Note the handler reads only ws.userId from the connection,
never ws.boardId. -/
def wsReorderRel (s : Store) (reg : Registry) (ws : Conn) (msg : ReorderMsg)
    (s' : Store) (out : List (Nat × Message)) : Prop :=
  if reorderAuth s ws msg then
    ∃ bid canon, msg.boardId = some bid ∧
      s' = applyReorder s bid msg.tasks ∧
      isCanonicalRead s'.tasks bid canon ∧
      out = broadcastToBoard reg bid (Message.tasks_reorder canon bid)
  else s' = s ∧ out = []

/-- Result of the websocket connection handshake: the updated registry,
the connection object after the handler ran, the messages the handler
sent to this socket, and whether the socket stayed open. -/
structure HandshakeResult where
  reg : Registry
  conn : Conn
  sent : List Message
  accepted : Bool
deriving DecidableEq

/-- The wss connection handler of index.ts (lines 764-800): close on a
missing or unverifiable token; otherwise record userId and, when a
boardId query parameter is truthy, record it and add the connection to
that board's set.  No store lookup happens and no message is sent to
the socket during the handshake. -/
def handshake (verify : String → Option String) (reg : Registry) (ws : Conn)
    (token : Option String) (boardId : Option String) : HandshakeResult :=
  if !(strTruthy token) then ⟨reg, ws, [], false⟩
  else
    match verify (token.getD "") with
    | none => ⟨reg, ws, [], false⟩
    | some uid =>
      let ws₁ := { ws with userId := some uid }
      if strTruthy boardId then
        let ws₂ := { ws₁ with boardId := boardId }
        ⟨addConn reg (boardId.getD "") ws₂, ws₂, [], true⟩
      else ⟨reg, ws₁, [], true⟩

/-- Largest order value among a board and column's tasks, the model of
find(boardId, column).sort(order: -1).limit(1) reading the order
field.  Deterministic even under ties because only the maximal value
is read. -/
def maxOrder (ts : List Task) (bid : String) (col : Column) : Option Int :=
  ((ts.filter (fun t => t.boardId == bid && t.column == col)).map (fun t => t.order)).max?

/-- Request data of POST /boards/:boardId/tasks: route parameter, the
authenticated user, body fields, plus the server-generated uuid and
timestamp. -/
structure CreateReq where
  boardId : String
  userId : String
  title : String
  column : Option Column
  description : Option String
  newId : String
  now : Int
deriving DecidableEq

/-- POST /boards/:boardId/tasks (index.ts lines 584-638): board lookup,
access check, title check, order assignment, insert, broadcast
task_created.  Error paths answer the HTTP caller only and broadcast
nothing. -/
def restCreate (reg : Registry) (s : Store) (r : CreateReq) :
    Store × List (Nat × Message) :=
  match findBoard s r.boardId with
  | none => (s, [])
  | some b =>
    if !(restAccess s r.userId b) then (s, [])
    else if r.title == "" then (s, [])
    else
      let col := r.column.getD .todo
      let nextOrder :=
        match maxOrder s.tasks r.boardId col with
        | some m => m + 1
        | none => 0
      let task : Task :=
        { id := r.newId, title := r.title, description := r.description.getD "",
          column := col, createdAt := r.now, order := nextOrder, boardId := r.boardId }
      ({ s with tasks := s.tasks ++ [task] },
       broadcastToBoard reg r.boardId (Message.task_created task r.boardId))

/-- Request data of PUT /tasks/:taskId. -/
structure UpdateReq where
  taskId : String
  userId : String
  title : Option String
  description : Option String
  column : Option Column
deriving DecidableEq

/-- PUT /tasks/:taskId (index.ts lines 640-690): task lookup, board
lookup, access check, set only the provided fields, re-read, broadcast
task_updated on the task's board. -/
def restUpdate (reg : Registry) (s : Store) (r : UpdateReq) :
    Store × List (Nat × Message) :=
  match s.tasks.find? (fun t => t.id == r.taskId) with
  | none => (s, [])
  | some task =>
    match findBoard s task.boardId with
    | none => (s, [])
    | some b =>
      if !(restAccess s r.userId b) then (s, [])
      else
        let upd : Task → Task := fun t =>
          { t with title := r.title.getD t.title,
                   description := r.description.getD t.description,
                   column := r.column.getD t.column }
        let newTasks := updateFirst (fun t => t.id == r.taskId) upd s.tasks
        let updated := newTasks.find? (fun t => t.id == r.taskId)
        ({ s with tasks := newTasks },
         broadcastToBoard reg task.boardId (Message.task_updated updated task.boardId))

/-- DELETE /tasks/:taskId (index.ts lines 692-734): task lookup, board
lookup, access check, delete, broadcast task_deleted on the task's
board. -/
def restDelete (reg : Registry) (s : Store) (uid taskId : String) :
    Store × List (Nat × Message) :=
  match s.tasks.find? (fun t => t.id == taskId) with
  | none => (s, [])
  | some task =>
    match findBoard s task.boardId with
    | none => (s, [])
    | some b =>
      if !(restAccess s uid b) then (s, [])
      else
        ({ s with tasks := deleteFirst (fun t => t.id == taskId) s.tasks },
         broadcastToBoard reg task.boardId (Message.task_deleted taskId task.boardId))

/-- One server operation: the three REST task mutations and the
websocket reorder, the operations that emit board-scoped events. -/
inductive Op where
  | create (r : CreateReq)
  | update (r : UpdateReq)
  | delete (uid taskId : String)
  | reorder (ws : Conn) (msg : ReorderMsg)

/-- Small-step semantics over a fixed registry: each operation takes
the store to a new store and emits a list of deliveries. -/
inductive Step (reg : Registry) : Store → Op → Store → List (Nat × Message) → Prop where
  | create (s : Store) (r : CreateReq) :
      Step reg s (Op.create r) (restCreate reg s r).1 (restCreate reg s r).2
  | update (s : Store) (r : UpdateReq) :
      Step reg s (Op.update r) (restUpdate reg s r).1 (restUpdate reg s r).2
  | delete (s : Store) (uid taskId : String) :
      Step reg s (Op.delete uid taskId) (restDelete reg s uid taskId).1
        (restDelete reg s uid taskId).2
  | reorder (s : Store) (ws : Conn) (msg : ReorderMsg) (s' : Store)
      (out : List (Nat × Message)) (h : wsReorderRel s reg ws msg s' out) :
      Step reg s (Op.reorder ws msg) s' out

/-- A trace of operations with the concatenated deliveries. -/
inductive Trace (reg : Registry) : Store → List Op → Store → List (Nat × Message) → Prop where
  | nil (s : Store) : Trace reg s [] s []
  | cons (s s₁ s₂ : Store) (op : Op) (ops : List Op)
      (out₁ outs : List (Nat × Message))
      (h₁ : Step reg s op s₁ out₁) (h₂ : Trace reg s₁ ops s₂ outs) :
      Trace reg s (op :: ops) s₂ (out₁ ++ outs)

/-! Concrete fixtures used to evaluate the embedded handlers on closed
inputs: a personal board "B" owned by user "u" with two todo tasks, its
open websocket connection, and the reorder batch of the specification's
worked scenario. -/

/-- Personal board of the worked scenario, owned by "u". -/
def boardB : Board :=
  { id := "B", name := "Board B", teamId := none, ownerId := "u", isPersonal := true }

/-- Task A of the worked scenario: todo, order 0. -/
def taskA : Task :=
  { id := "A", title := "A", description := "", column := .todo,
    createdAt := 0, order := 0, boardId := "B" }

/-- Task C of the worked scenario: todo, order 1. -/
def taskC : Task :=
  { id := "C", title := "C", description := "", column := .todo,
    createdAt := 0, order := 1, boardId := "B" }

/-- Store of the worked scenario. -/
def scStore : Store := { boards := [boardB], teams := [], tasks := [taskA, taskC] }

/-- Open connection of the board owner, scoped to "B". -/
def scConn : Conn :=
  { connId := 7, userId := some "u", boardId := some "B", readyState := 1 }

/-- Open connection of the board owner whose handshake scoped it to a
different board "Z". -/
def scConnZ : Conn :=
  { connId := 7, userId := some "u", boardId := some "Z", readyState := 1 }

/-- Open connection of a user with no access to board "B". -/
def evilConn : Conn :=
  { connId := 9, userId := some "mallory", boardId := some "B", readyState := 1 }

/-- Registry with the owner's connection registered under "B". -/
def scReg : Registry := [("B", [scConn])]

/-- The scenario's reorder batch: move A to inprogress order 0, keep C
in todo at order 0. -/
def scMsg : ReorderMsg :=
  { boardId := some "B", tasks := [⟨"A", .inprogress, 0⟩, ⟨"C", .todo, 0⟩] }

/-- Task A after the batch: inprogress, order 0. -/
def taskA2 : Task := { taskA with column := .inprogress, order := 0 }

/-- Task C after the batch: todo, order 0. -/
def taskC2 : Task := { taskC with column := .todo, order := 0 }

/-- Store after the batch. -/
def scPost : Store := { scStore with tasks := [taskA2, taskC2] }

/-- Deliveries the handler produces on the scenario: one tasks_reorder
to connection 7 with the lexicographically column-sorted canonical
list. -/
def scOut : List (Nat × Message) :=
  [(7, Message.tasks_reorder [taskA2, taskC2] "B")]

/-- Task X: todo, order 0 on board "B" (tied key with Y). -/
def taskX : Task :=
  { id := "X", title := "X", description := "", column := .todo,
    createdAt := 0, order := 0, boardId := "B" }

/-- Task Y: todo, order 0 on board "B" (tied key with X). -/
def taskY : Task :=
  { id := "Y", title := "Y", description := "", column := .todo,
    createdAt := 0, order := 0, boardId := "B" }

/-- Store with two tasks sharing the (column, order) key. -/
def tieStore : Store := { boards := [boardB], teams := [], tasks := [taskX, taskY] }

/-- An authorized empty reorder batch on board "B". -/
def tieMsg : ReorderMsg := { boardId := some "B", tasks := [] }

/-- One possible broadcast for the tied store. -/
def tieOut1 : List (Nat × Message) := [(7, Message.tasks_reorder [taskX, taskY] "B")]

/-- The other possible broadcast for the tied store. -/
def tieOut2 : List (Nat × Message) := [(7, Message.tasks_reorder [taskY, taskX] "B")]

/-- Demo identity verifier: accepts exactly the credential "tok" as
user "u". -/
def verifyDemo : String → Option String :=
  fun t => if t == "tok" then some "u" else none

/-- A fresh, unauthenticated connection. -/
def freshConn : Conn := { connId := 3, userId := none, boardId := none, readyState := 1 }

/-- A store containing no boards at all. -/
def ghostStore : Store := { boards := [], teams := [], tasks := [] }

/-- Board "b1" of the isolation fixture. -/
def board1 : Board :=
  { id := "b1", name := "one", teamId := none, ownerId := "u", isPersonal := true }

/-- Connection 1, scoped to "b1". -/
def w8conn : Conn :=
  { connId := 1, userId := some "u", boardId := some "b1", readyState := 1 }

/-- Registry with connection 1 under "b1" only. -/
def w8reg : Registry := [("b1", [w8conn])]

/-- Store of the isolation fixture. -/
def w8store : Store := { boards := [board1], teams := [], tasks := [] }

/-- A create request on board "b1" by its owner. -/
def w8req : CreateReq :=
  { boardId := "b1", userId := "u", title := "t", column := none,
    description := none, newId := "T1", now := 5 }

/-- The task that create request inserts. -/
def w8task : Task :=
  { id := "T1", title := "t", description := "", column := .todo,
    createdAt := 5, order := 0, boardId := "b1" }

/-! Helper lemmas about the embedded operations. -/

/-- Sanity check grounding `Column.rank`: the rank order agrees with
lexicographic character-level comparison of the strings MongoDB stores
and sorts. -/
theorem Column.rank_lt_iff_str_lex (a b : Column) :
    a.rank < b.rank ↔ List.Lex (fun x y : Char => x < y) a.str.toList b.str.toList := by
  cases a <;> cases b <;> simp [Column.rank, Column.str] <;> decide

theorem ite_prop_of_true {c : Prop} [Decidable c] {A B : Prop} (hc : c) (ha : A) :
    if c then A else B := by
  rwa [if_pos hc]

theorem prop_of_ite_true {c : Prop} [Decidable c] {A B : Prop} (hc : c)
    (h : if c then A else B) : A := by
  rwa [if_pos hc] at h

theorem prop_of_ite_false {c : Prop} [Decidable c] {A B : Prop} (hc : ¬c)
    (h : if c then A else B) : B := by
  rwa [if_neg hc] at h

theorem updateFirst_frame (p : α → Bool) (f : α → α) (l : List α) (i : Nat) :
    (updateFirst p f l)[i]? = l[i]? ∨
      ∃ a, l[i]? = some a ∧ p a = true ∧ (updateFirst p f l)[i]? = some (f a) := by
  induction l generalizing i with
  | nil => left; simp [updateFirst]
  | cons x xs ih =>
    by_cases hp : p x
    · cases i with
      | zero => right; exact ⟨x, by simp, hp, by simp [updateFirst, hp]⟩
      | succ j => left; simp [updateFirst, hp]
    · cases i with
      | zero => left; simp [updateFirst, hp]
      | succ j =>
        simp only [updateFirst, hp, Bool.false_eq_true, if_false,
          List.getElem?_cons_succ]
        exact ih j

theorem updateFirst_getElem?_of_not (p : α → Bool) (f : α → α) (l : List α)
    (i : Nat) (a : α) (h : l[i]? = some a) (hp : p a = false) :
    (updateFirst p f l)[i]? = some a := by
  induction l generalizing i with
  | nil => simp at h
  | cons x xs ih =>
    cases i with
    | zero =>
      simp at h
      subst h
      simp [updateFirst, hp]
    | succ j =>
      simp only [List.getElem?_cons_succ] at h
      by_cases hx : p x
      · simp [updateFirst, hx, h]
      · simp only [updateFirst, hx, Bool.false_eq_true, if_false,
          List.getElem?_cons_succ]
        exact ih j h

theorem updateFirst_eq_of_none (p : α → Bool) (f : α → α) (l : List α)
    (h : ∀ x ∈ l, p x = false) : updateFirst p f l = l := by
  induction l with
  | nil => rfl
  | cons x xs ih =>
    have hx := h x (by simp)
    simp only [updateFirst, hx, Bool.false_eq_true, if_false]
    rw [ih (fun y hy => h y (by simp [hy]))]

theorem updateFirst_getElem?_first (p : α → Bool) (f : α → α) (l : List α)
    (i : Nat) (a : α) (h : l[i]? = some a) (hp : p a = true)
    (hfirst : ∀ j b, j < i → l[j]? = some b → p b = false) :
    (updateFirst p f l)[i]? = some (f a) := by
  induction l generalizing i with
  | nil => simp at h
  | cons x xs ih =>
    cases i with
    | zero =>
      simp at h
      subst h
      simp [updateFirst, hp]
    | succ j =>
      have hx : p x = false := hfirst 0 x (Nat.succ_pos j) (by simp)
      simp only [List.getElem?_cons_succ] at h
      simp only [updateFirst, hx, Bool.false_eq_true, if_false,
        List.getElem?_cons_succ]
      exact ih j h (fun k b hk hb =>
        hfirst (k + 1) b (Nat.succ_lt_succ hk) (by simpa using hb))

theorem mem_broadcastToBoard (reg : Registry) (bid : String) (m : Message)
    (cid : Nat) (m' : Message) (h : (cid, m') ∈ broadcastToBoard reg bid m) :
    m' = m ∧ ∃ c, c ∈ getConns reg bid ∧ c.connId = cid ∧ c.readyState = 1 := by
  unfold broadcastToBoard at h
  rcases List.mem_map.mp h with ⟨c, hc, hpair⟩
  rcases List.mem_filter.mp hc with ⟨hcm, hrs⟩
  obtain ⟨h₁, h₂⟩ := Prod.mk.injEq .. ▸ hpair
  exact ⟨h₂.symm, c, hcm, h₁, by simpa using hrs⟩

theorem broadcastToBoard_delivers (reg : Registry) (bid : String) (m : Message)
    (c : Conn) (hc : c ∈ getConns reg bid) (hrs : c.readyState = 1) :
    (c.connId, m) ∈ broadcastToBoard reg bid m := by
  unfold broadcastToBoard
  exact List.mem_map.mpr ⟨c, List.mem_filter.mpr ⟨hc, by simp [hrs]⟩, rfl⟩

theorem mem_getConns_addConn (reg : Registry) (bid : String) (c : Conn) :
    c ∈ getConns (addConn reg bid c) bid := by
  induction reg with
  | nil => simp [addConn, getConns, List.lookup]
  | cons p rest ih =>
    obtain ⟨b, cs⟩ := p
    by_cases hb : b = bid
    · subst hb
      simp [addConn, getConns, List.lookup]
    · have hbe : (b == bid) = false := by simp [hb]
      have hbe' : (bid == b) = false := by simp [Ne.symm hb]
      simpa [addConn, hbe, hbe', getConns, List.lookup] using ih

theorem strTruthy_iff (o : Option String) :
    strTruthy o = true ↔ ∃ x, o = some x ∧ x ≠ "" := by
  cases o <;> simp [strTruthy]

theorem boardAccessOk_spec (s : Store) (uid bid : String)
    (h : boardAccessOk s uid bid = true) :
    ∃ board, findBoard s bid = some board ∧ reorderAccess s uid board = true := by
  unfold boardAccessOk at h
  cases hf : findBoard s bid with
  | none => rw [hf] at h; simp at h
  | some board => rw [hf] at h; exact ⟨board, rfl, h⟩

theorem reorderAuth_spec (s : Store) (ws : Conn) (msg : ReorderMsg)
    (h : reorderAuth s ws msg = true) :
    ∃ uid bid board, ws.userId = some uid ∧ msg.boardId = some bid ∧
      uid ≠ "" ∧ bid ≠ "" ∧ findBoard s bid = some board ∧
      reorderAccess s uid board = true := by
  unfold reorderAuth at h
  simp only [Bool.and_eq_true] at h
  obtain ⟨⟨hu, hb⟩, hacc⟩ := h
  obtain ⟨uid, huid, hune⟩ := (strTruthy_iff _).mp hu
  obtain ⟨bid, hbid, hbne⟩ := (strTruthy_iff _).mp hb
  rw [huid, hbid] at hacc
  obtain ⟨board, hf, hra⟩ := boardAccessOk_spec _ _ _ hacc
  exact ⟨uid, bid, board, huid, hbid, hune, hbne, hf, hra⟩

theorem applyReorder_boards (s : Store) (bid : String) (us : List ReorderTuple) :
    (applyReorder s bid us).boards = s.boards := rfl

theorem restCreate_boards (reg : Registry) (s : Store) (r : CreateReq) :
    (restCreate reg s r).1.boards = s.boards := by
  unfold restCreate
  cases findBoard s r.boardId <;> simp
  split
  · rfl
  · split <;> rfl

theorem restUpdate_boards (reg : Registry) (s : Store) (r : UpdateReq) :
    (restUpdate reg s r).1.boards = s.boards := by
  unfold restUpdate
  cases s.tasks.find? (fun t => t.id == r.taskId) with
  | none => rfl
  | some task =>
    simp only
    cases findBoard s task.boardId with
    | none => rfl
    | some b =>
      simp only
      split <;> rfl

theorem restDelete_boards (reg : Registry) (s : Store) (uid taskId : String) :
    (restDelete reg s uid taskId).1.boards = s.boards := by
  unfold restDelete
  cases s.tasks.find? (fun t => t.id == taskId) with
  | none => rfl
  | some task =>
    simp only
    cases findBoard s task.boardId with
    | none => rfl
    | some b =>
      simp only
      split <;> rfl

theorem wsReorderRel_boards (s : Store) (reg : Registry) (ws : Conn)
    (msg : ReorderMsg) (s' : Store) (out : List (Nat × Message))
    (h : wsReorderRel s reg ws msg s' out) : s'.boards = s.boards := by
  unfold wsReorderRel at h
  split at h
  · rcases h with ⟨bid, canon, _, hs, _, _⟩
    rw [hs]
    exact applyReorder_boards s bid msg.tasks
  · rw [h.1]

theorem restCreate_out_spec (reg : Registry) (s : Store) (r : CreateReq)
    (cid : Nat) (m : Message) (h : (cid, m) ∈ (restCreate reg s r).2) :
    ∃ b, m.boardOf = some b ∧ (findBoard s b).isSome = true ∧
      ∃ c, c ∈ getConns reg b ∧ c.connId = cid ∧ c.readyState = 1 := by
  unfold restCreate at h
  cases hb : findBoard s r.boardId with
  | none => rw [hb] at h; simp at h
  | some b =>
    rw [hb] at h
    simp only at h
    split at h
    · simp at h
    · split at h
      · simp at h
      · obtain ⟨hm, c, hc, hcid, hrs⟩ := mem_broadcastToBoard _ _ _ _ _ h
        exact ⟨r.boardId, by rw [hm]; rfl, by rw [hb]; rfl, c, hc, hcid, hrs⟩

theorem restUpdate_out_spec (reg : Registry) (s : Store) (r : UpdateReq)
    (cid : Nat) (m : Message) (h : (cid, m) ∈ (restUpdate reg s r).2) :
    ∃ b, m.boardOf = some b ∧ (findBoard s b).isSome = true ∧
      ∃ c, c ∈ getConns reg b ∧ c.connId = cid ∧ c.readyState = 1 := by
  unfold restUpdate at h
  cases ht : s.tasks.find? (fun t => t.id == r.taskId) with
  | none => rw [ht] at h; simp at h
  | some task =>
    rw [ht] at h
    simp only at h
    cases hb : findBoard s task.boardId with
    | none => rw [hb] at h; simp at h
    | some b =>
      rw [hb] at h
      simp only at h
      split at h
      · simp at h
      · obtain ⟨hm, c, hc, hcid, hrs⟩ := mem_broadcastToBoard _ _ _ _ _ h
        exact ⟨task.boardId, by rw [hm]; rfl, by rw [hb]; rfl, c, hc, hcid, hrs⟩

theorem restDelete_out_spec (reg : Registry) (s : Store) (uid taskId : String)
    (cid : Nat) (m : Message) (h : (cid, m) ∈ (restDelete reg s uid taskId).2) :
    ∃ b, m.boardOf = some b ∧ (findBoard s b).isSome = true ∧
      ∃ c, c ∈ getConns reg b ∧ c.connId = cid ∧ c.readyState = 1 := by
  unfold restDelete at h
  cases ht : s.tasks.find? (fun t => t.id == taskId) with
  | none => rw [ht] at h; simp at h
  | some task =>
    rw [ht] at h
    simp only at h
    cases hb : findBoard s task.boardId with
    | none => rw [hb] at h; simp at h
    | some b =>
      rw [hb] at h
      simp only at h
      split at h
      · simp at h
      · obtain ⟨hm, c, hc, hcid, hrs⟩ := mem_broadcastToBoard _ _ _ _ _ h
        exact ⟨task.boardId, by rw [hm]; rfl, by rw [hb]; rfl, c, hc, hcid, hrs⟩

theorem wsReorder_out_spec (s : Store) (reg : Registry) (ws : Conn)
    (msg : ReorderMsg) (s' : Store) (out : List (Nat × Message))
    (h : wsReorderRel s reg ws msg s' out)
    (cid : Nat) (m : Message) (hm : (cid, m) ∈ out) :
    ∃ b, m.boardOf = some b ∧ (findBoard s b).isSome = true ∧
      ∃ c, c ∈ getConns reg b ∧ c.connId = cid ∧ c.readyState = 1 := by
  unfold wsReorderRel at h
  split at h
  · next hauth =>
    rcases h with ⟨bid, canon, hbid, hs, hread, hout⟩
    rw [hout] at hm
    obtain ⟨hmsg, c, hc, hcid, hrs⟩ := mem_broadcastToBoard _ _ _ _ _ hm
    obtain ⟨uid, bid', board, _, hbid', _, _, hf, _⟩ := reorderAuth_spec _ _ _ hauth
    have hbb : bid' = bid := by rw [hbid] at hbid'; exact (Option.some.injEq .. ▸ hbid').symm
    subst hbb
    exact ⟨bid', by rw [hmsg]; rfl, by rw [hf]; rfl, c, hc, hcid, hrs⟩
  · rw [h.2] at hm
    simp at hm

theorem step_out_spec (reg : Registry) (s : Store) (op : Op) (s' : Store)
    (out : List (Nat × Message)) (h : Step reg s op s' out)
    (cid : Nat) (m : Message) (hm : (cid, m) ∈ out) :
    ∃ b, m.boardOf = some b ∧ (findBoard s b).isSome = true ∧
      ∃ c, c ∈ getConns reg b ∧ c.connId = cid ∧ c.readyState = 1 := by
  cases h with
  | create r => exact restCreate_out_spec reg s r cid m hm
  | update r => exact restUpdate_out_spec reg s r cid m hm
  | delete uid taskId => exact restDelete_out_spec reg s uid taskId cid m hm
  | reorder ws msg _ _ hrel => exact wsReorder_out_spec s reg ws msg s' out hrel cid m hm

theorem Step.boards_eq (reg : Registry) (s : Store) (op : Op) (s' : Store)
    (out : List (Nat × Message)) (h : Step reg s op s' out) :
    s'.boards = s.boards := by
  cases h with
  | create r => exact restCreate_boards reg s r
  | update r => exact restUpdate_boards reg s r
  | delete uid taskId => exact restDelete_boards reg s uid taskId
  | reorder ws msg _ _ hrel => exact wsReorderRel_boards s reg ws msg s' out hrel

theorem findBoard_of_boards_eq (s₁ s₂ : Store) (bid : String)
    (h : s₁.boards = s₂.boards) : findBoard s₁ bid = findBoard s₂ bid := by
  unfold findBoard
  rw [h]

theorem trace_out_spec (reg : Registry) (s : Store) (ops : List Op) (s' : Store)
    (outs : List (Nat × Message)) (h : Trace reg s ops s' outs)
    (cid : Nat) (m : Message) (hm : (cid, m) ∈ outs) :
    ∃ b, m.boardOf = some b ∧ (findBoard s b).isSome = true ∧
      ∃ c, c ∈ getConns reg b ∧ c.connId = cid ∧ c.readyState = 1 := by
  induction h with
  | nil s => simp at hm
  | cons s s₁ s₂ op ops out₁ outs h₁ h₂ ih =>
    rcases List.mem_append.mp hm with hm₁ | hm₂
    · exact step_out_spec reg s op s₁ out₁ h₁ cid m hm₁
    · obtain ⟨b, hbo, hbf, c, hc, hcid, hrs⟩ := ih hm₂
      refine ⟨b, hbo, ?_, c, hc, hcid, hrs⟩
      rw [← findBoard_of_boards_eq s₁ s b (Step.boards_eq reg s op s₁ out₁ h₁)]
      exact hbf

theorem wsReorderRel_auth_true (s : Store) (reg : Registry) (ws : Conn)
    (msg : ReorderMsg) (s' : Store) (out : List (Nat × Message))
    (hauth : reorderAuth s ws msg = true)
    (h : wsReorderRel s reg ws msg s' out) :
    ∃ bid canon, msg.boardId = some bid ∧
      s' = applyReorder s bid msg.tasks ∧
      isCanonicalRead s'.tasks bid canon ∧
      out = broadcastToBoard reg bid (Message.tasks_reorder canon bid) := by
  unfold wsReorderRel at h
  exact prop_of_ite_true hauth h

theorem wsReorderRel_auth_false (s : Store) (reg : Registry) (ws : Conn)
    (msg : ReorderMsg) (s' : Store) (out : List (Nat × Message))
    (hauth : reorderAuth s ws msg = false)
    (h : wsReorderRel s reg ws msg s' out) : s' = s ∧ out = [] := by
  unfold wsReorderRel at h
  exact prop_of_ite_false (by simp [hauth]) h

theorem wsReorderRel_intro (s : Store) (reg : Registry) (ws : Conn)
    (msg : ReorderMsg) (bid : String) (canon : List Task)
    (hauth : reorderAuth s ws msg = true)
    (hbid : msg.boardId = some bid)
    (hread : isCanonicalRead (applyReorder s bid msg.tasks).tasks bid canon) :
    wsReorderRel s reg ws msg (applyReorder s bid msg.tasks)
      (broadcastToBoard reg bid (Message.tasks_reorder canon bid)) := by
  unfold wsReorderRel
  exact ite_prop_of_true hauth ⟨bid, canon, hbid, rfl, hread, rfl⟩

theorem wsReorderRel_intro_denied (s : Store) (reg : Registry) (ws : Conn)
    (msg : ReorderMsg) (hauth : reorderAuth s ws msg = false) :
    wsReorderRel s reg ws msg s [] := by
  unfold wsReorderRel
  rw [hauth]
  simp

/-- The worked scenario satisfies the reorder relation with the
lexicographically column-sorted canonical broadcast. -/
theorem scRel : wsReorderRel scStore scReg scConn scMsg scPost scOut := by
  unfold wsReorderRel
  exact ite_prop_of_true (by decide)
    ⟨"B", [taskA2, taskC2], rfl, by decide, by decide, by decide⟩

/-- The worked scenario also satisfies the relation when the submitting
connection was handshake-scoped to a different board "Z": the handler
never reads the connection's scope. -/
theorem scRelZ : wsReorderRel scStore scReg scConnZ scMsg scPost scOut := by
  unfold wsReorderRel
  exact ite_prop_of_true (by decide)
    ⟨"B", [taskA2, taskC2], rfl, by decide, by decide, by decide⟩

/-- An unauthorized submitter is silently dropped on the worked
scenario. -/
theorem evilRel : wsReorderRel scStore scReg evilConn scMsg scStore [] :=
  wsReorderRel_intro_denied scStore scReg evilConn scMsg (by decide)

theorem keyLT_of_keyLE_ne (a b : Task) (hle : keyLE a b)
    (hne : taskKey a ≠ taskKey b) : keyLT a b := by
  rcases hle with h | ⟨h₁, h₂⟩
  · exact Or.inl h
  · refine Or.inr ⟨h₁, ?_⟩
    rcases lt_or_eq_of_le h₂ with h | h
    · exact h
    · exact absurd (by unfold taskKey; rw [h₁, h]) hne

/-- Uniqueness of the canonical read when the board's tasks carry
pairwise-distinct (column, order) keys: the MongoDB sort has nothing
left unspecified, so any two reads coincide. -/
theorem canonicalRead_unique (ts : List Task) (bid : String) (l₁ l₂ : List Task)
    (hk : (ts.filter (fun t => t.boardId == bid)).Pairwise
      (fun a b => taskKey a ≠ taskKey b))
    (h₁ : isCanonicalRead ts bid l₁) (h₂ : isCanonicalRead ts bid l₂) :
    l₁ = l₂ := by
  obtain ⟨hp₁, hs₁⟩ := h₁
  obtain ⟨hp₂, hs₂⟩ := h₂
  have hsym : ∀ {x y : Task}, taskKey x ≠ taskKey y → taskKey y ≠ taskKey x :=
    fun h e => h e.symm
  have hk₁ : l₁.Pairwise (fun a b => taskKey a ≠ taskKey b) :=
    (List.Perm.pairwise_iff hsym hp₁).mpr hk
  have hk₂ : l₂.Pairwise (fun a b => taskKey a ≠ taskKey b) :=
    (List.Perm.pairwise_iff hsym hp₂).mpr hk
  have hlt₁ : l₁.Pairwise keyLT :=
    (hs₁.and hk₁).imp (fun h => keyLT_of_keyLE_ne _ _ h.1 h.2)
  have hlt₂ : l₂.Pairwise keyLT :=
    (hs₂.and hk₂).imp (fun h => keyLT_of_keyLE_ne _ _ h.1 h.2)
  exact List.eq_of_perm_of_sorted (hp₁.trans hp₂.symm) hlt₁ hlt₂

/-- Delivery of any payload through the scenario registry reaches
exactly connection 7. -/
theorem broadcast_scReg (m : Message) : broadcastToBoard scReg "B" m = [(7, m)] := rfl

theorem getConns_singleton (b : String) (cs : List Conn) (b' : String) (c : Conn)
    (h : c ∈ getConns [(b, cs)] b') : b' = b ∧ c ∈ cs := by
  unfold getConns List.lookup at h
  by_cases hb : b' = b
  · subst hb
    simp at h
    exact ⟨rfl, h⟩
  · have : (b' == b) = false := by simp [hb]
    rw [this] at h
    simp at h

/-- Behaviour of the handshake on a verified credential and a truthy
boardId: the connection is recorded with the user and board and pushed
into that board's set, no messages are sent, and no store access of
any kind occurs (the function does not even receive the store). -/
theorem handshake_admits (verify : String → Option String) (reg : Registry)
    (ws : Conn) (tok uid bid : String)
    (hv : verify tok = some uid) (htok : tok ≠ "") (hbid : bid ≠ "") :
    handshake verify reg ws (some tok) (some bid) =
      ⟨addConn reg bid { ws with userId := some uid, boardId := some bid },
       { ws with userId := some uid, boardId := some bid }, [], true⟩ := by
  unfold handshake
  have h1 : strTruthy (some tok) = true := by simp [strTruthy, htok]
  have h2 : strTruthy (some bid) = true := by simp [strTruthy, hbid]
  rw [h1]
  simp only [Bool.not_true, Bool.false_eq_true, if_false, Option.getD_some, hv, h2, if_true]

theorem applyTuple_frame (bid : String) (ts : List Task) (u : ReorderTuple)
    (i : Nat) (a b : Task) (ha : ts[i]? = some a)
    (hb : (applyTuple bid ts u)[i]? = some b) :
    b.id = a.id ∧ b.title = a.title ∧ b.description = a.description ∧
      b.createdAt = a.createdAt ∧ b.boardId = a.boardId := by
  unfold applyTuple at hb
  rcases updateFirst_frame (fun t => t.id == u.id && t.boardId == bid)
      (fun t => { t with column := u.column, order := u.order }) ts i with
    h | ⟨a', ha', _, hres⟩
  · rw [h, ha] at hb
    obtain rfl := Option.some.inj hb
    exact ⟨rfl, rfl, rfl, rfl, rfl⟩
  · rw [ha] at ha'
    obtain rfl := Option.some.inj ha'
    rw [hres] at hb
    obtain rfl := Option.some.inj hb
    exact ⟨rfl, rfl, rfl, rfl, rfl⟩

theorem foldl_applyTuple_frame (bid : String) (us : List ReorderTuple)
    (ts : List Task) (i : Nat) (a b : Task) (ha : ts[i]? = some a)
    (hb : (us.foldl (applyTuple bid) ts)[i]? = some b) :
    b.id = a.id ∧ b.title = a.title ∧ b.description = a.description ∧
      b.createdAt = a.createdAt ∧ b.boardId = a.boardId := by
  induction us generalizing ts a with
  | nil =>
    simp only [List.foldl_nil] at hb
    rw [ha] at hb
    obtain rfl := Option.some.inj hb
    exact ⟨rfl, rfl, rfl, rfl, rfl⟩
  | cons u us ih =>
    simp only [List.foldl_cons] at hb
    rcases updateFirst_frame (fun t => t.id == u.id && t.boardId == bid)
        (fun t => { t with column := u.column, order := u.order }) ts i with
      h | ⟨a', ha', _, hres⟩
    · have ha₁ : (applyTuple bid ts u)[i]? = some a := by
        unfold applyTuple
        rw [h, ha]
      exact ih (applyTuple bid ts u) a ha₁ hb
    · rw [ha] at ha'
      obtain rfl := Option.some.inj ha'
      have ha₁ : (applyTuple bid ts u)[i]? =
          some { a with column := u.column, order := u.order } := by
        unfold applyTuple
        rw [hres]
      obtain ⟨e₁, e₂, e₃, e₄, e₅⟩ :=
        ih (applyTuple bid ts u) { a with column := u.column, order := u.order } ha₁ hb
      exact ⟨e₁, e₂, e₃, e₄, e₅⟩

theorem matchesTuple_false_of_not (u : ReorderTuple) (bid : String) (a : Task)
    (h : ¬(a.id = u.id ∧ a.boardId = bid)) :
    (a.id == u.id && a.boardId == bid) = false := by
  rw [Bool.and_eq_false_iff]
  by_cases h₁ : a.id = u.id
  · right
    simp only [beq_eq_false_iff_ne, ne_eq]
    exact fun h₂ => h ⟨h₁, h₂⟩
  · left
    simp only [beq_eq_false_iff_ne, ne_eq]
    exact h₁

theorem foldl_applyTuple_untouched (bid : String) (us : List ReorderTuple)
    (ts : List Task) (i : Nat) (a : Task) (ha : ts[i]? = some a)
    (hno : ∀ u ∈ us, ¬(a.id = u.id ∧ a.boardId = bid)) :
    (us.foldl (applyTuple bid) ts)[i]? = some a := by
  induction us generalizing ts with
  | nil => simpa using ha
  | cons u us ih =>
    have hp : (a.id == u.id && a.boardId == bid) = false :=
      matchesTuple_false_of_not u bid a (hno u (by simp))
    have ha₁ : (applyTuple bid ts u)[i]? = some a :=
      updateFirst_getElem?_of_not _ _ ts i a ha hp
    simp only [List.foldl_cons]
    exact ih (applyTuple bid ts u) ha₁ (fun v hv => hno v (by simp [hv]))

theorem applyTuple_skip (bid : String) (ts : List Task) (u : ReorderTuple)
    (h : ∀ t ∈ ts, ¬(t.id = u.id ∧ t.boardId = bid)) :
    applyTuple bid ts u = ts := by
  unfold applyTuple
  exact updateFirst_eq_of_none _ _ ts
    (fun t ht => matchesTuple_false_of_not u bid t (h t ht))

theorem applyTuple_updates_first (bid : String) (ts : List Task)
    (u : ReorderTuple) (i : Nat) (a : Task) (ha : ts[i]? = some a)
    (hid : a.id = u.id) (hbd : a.boardId = bid)
    (hfirst : ∀ j b, j < i → ts[j]? = some b → ¬(b.id = u.id ∧ b.boardId = bid)) :
    (applyTuple bid ts u)[i]? = some { a with column := u.column, order := u.order } := by
  unfold applyTuple
  refine updateFirst_getElem?_first _ _ ts i a ha ?_ ?_
  · simp [hid, hbd]
  · exact fun j b hj hb => matchesTuple_false_of_not u bid b (hfirst j b hj hb)

/-! Claim theorems. -/

/-- C1: after an authorized reorder batch is applied, the handler
re-reads the full current task set of the claimed board sorted by
(column, order) ascending and broadcasts that canonical snapshot, not
the client's submitted batch, as a single tasks_reorder message to
every open connection registered to the board (the submitter included
when registered there); the snapshot is a read of the store strictly
after all of the batch's writes. -/
theorem C1_reorder_broadcasts_canonical_snapshot
    (s : Store) (reg : Registry) (ws : Conn) (msg : ReorderMsg)
    (s' : Store) (out : List (Nat × Message)) (bid : String)
    (hrel : wsReorderRel s reg ws msg s' out)
    (hauth : reorderAuth s ws msg = true)
    (hbid : msg.boardId = some bid) :
    s' = applyReorder s bid msg.tasks ∧
    ∃ canon,
      List.Perm canon
        ((applyReorder s bid msg.tasks).tasks.filter (fun t => t.boardId == bid)) ∧
      canon.Pairwise keyLE ∧
      out = ((getConns reg bid).filter (fun c => c.readyState == 1)).map
        (fun c => (c.connId, Message.tasks_reorder canon bid)) ∧
      (∀ c, c ∈ getConns reg bid → c.readyState = 1 →
        (c.connId, Message.tasks_reorder canon bid) ∈ out) := by
  obtain ⟨bid', canon, hbid', hs, hread, hout⟩ :=
    wsReorderRel_auth_true s reg ws msg s' out hauth hrel
  rw [hbid] at hbid'
  obtain rfl := Option.some.inj hbid'
  obtain ⟨hperm, hsorted⟩ := hread
  rw [hs] at hperm
  refine ⟨hs, canon, hperm, hsorted, hout, ?_⟩
  intro c hc hrs
  rw [hout]
  exact broadcastToBoard_delivers reg bid _ c hc hrs

/-- Witness for C1 on the worked scenario. -/
theorem C1_witness : scPost = applyReorder scStore "B" scMsg.tasks :=
  (C1_reorder_broadcasts_canonical_snapshot scStore scReg scConn scMsg scPost scOut "B"
    scRel (by decide) rfl).1

/-- C2 counterexample: on the specified scenario the handler's
broadcast is forced to carry [A(inprogress,0), C(todo,0)] — the
relation rejects the claimed list [C(todo,0), A(inprogress,0)],
because MongoDB sorts the stored column strings binary-wise and
"inprogress" sorts before "todo". -/
theorem C2_counterexample :
    wsReorderRel scStore scReg scConn scMsg scPost scOut ∧
    scOut = [(7, Message.tasks_reorder [taskA2, taskC2] "B")] ∧
    ¬ wsReorderRel scStore scReg scConn scMsg scPost
        [(7, Message.tasks_reorder [taskC2, taskA2] "B")] := by
  refine ⟨scRel, rfl, ?_⟩
  intro h
  obtain ⟨bid, canon, hbid, hs, hread, hout⟩ :=
    wsReorderRel_auth_true _ _ _ _ _ _ (by decide) h
  have hbid' : bid = "B" := by
    have hx : (some "B" : Option String) = some bid := hbid
    exact (Option.some.inj hx).symm
  subst hbid'
  rw [broadcast_scReg] at hout
  have hcanon : [taskC2, taskA2] = canon := by
    simpa using hout
  rw [← hcanon] at hread
  exact absurd hread (by decide)

/-- C2 amended: on the scenario board with tasks A(todo,0), C(todo,1)
and batch moving A to (inprogress,0) and C to (todo,0), every valid
handler outcome stores the updates and broadcasts the canonical list
[A(inprogress,0), C(todo,0)] to all of the board's connections: the
column strings sort lexicographically ("inprogress" before "todo"),
not in todo-first lifecycle order. -/
theorem C2_amended_broadcast_order (s' : Store) (out : List (Nat × Message))
    (hrel : wsReorderRel scStore scReg scConn scMsg s' out) :
    s' = scPost ∧ out = [(7, Message.tasks_reorder [taskA2, taskC2] "B")] := by
  obtain ⟨bid, canon, hbid, hs, hread, hout⟩ :=
    wsReorderRel_auth_true _ _ _ _ _ _ (by decide) hrel
  have hbid' : bid = "B" := by
    have hx : (some "B" : Option String) = some bid := hbid
    exact (Option.some.inj hx).symm
  subst hbid'
  have hsP : s' = scPost := by
    rw [hs]
    decide
  rw [hsP] at hread
  have hcanon : canon = [taskA2, taskC2] :=
    canonicalRead_unique scPost.tasks "B" canon [taskA2, taskC2] (by decide) hread
      (by decide)
  subst hcanon
  exact ⟨hsP, by rw [hout, broadcast_scReg]⟩

/-- Witness for the amended C2. -/
theorem C2_amended_witness :
    scPost = scPost ∧ scOut = [(7, Message.tasks_reorder [taskA2, taskC2] "B")] :=
  C2_amended_broadcast_order scPost scOut scRel

/-- C3: a reorder batch submitted over a connection whose principal is
not authorized for the claimed board produces zero outbound messages
(no error reply, no broadcast) and leaves every stored task's fields
unchanged. -/
theorem C3_unauthorized_reorder_silent
    (s : Store) (reg : Registry) (ws : Conn) (msg : ReorderMsg)
    (s' : Store) (out : List (Nat × Message))
    (hrel : wsReorderRel s reg ws msg s' out)
    (hauth : reorderAuth s ws msg = false) :
    out = [] ∧ s' = s ∧ s'.tasks = s.tasks := by
  obtain ⟨h₁, h₂⟩ := wsReorderRel_auth_false s reg ws msg s' out hauth hrel
  exact ⟨h₂, h₁, by rw [h₁]⟩

/-- Witness for C3: the non-owner "mallory" submitting the scenario
batch is silently dropped. -/
theorem C3_witness :
    ([] : List (Nat × Message)) = [] ∧ scStore = scStore ∧
      scStore.tasks = scStore.tasks :=
  C3_unauthorized_reorder_silent scStore scReg evilConn scMsg scStore [] evilRel
    (by decide)

/-- C4 counterexample: a verified handshake scoped to board "B" admits
the connection to the board's set while sending zero messages to it —
so no init message with the board's canonical task list is sent. -/
theorem C4_counterexample :
    ((handshake verifyDemo [] freshConn (some "tok") (some "B")).conn ∈
      getConns (handshake verifyDemo [] freshConn (some "tok") (some "B")).reg "B") ∧
    (handshake verifyDemo [] freshConn (some "tok") (some "B")).sent = [] := by
  decide

/-- C4 amended: immediately after a connection completes the handshake
and is admitted to a board, the server sends it no messages at all —
in particular no init snapshot; a client obtains board state only
through subsequent broadcasts. -/
theorem C4_amended_handshake_sends_nothing (verify : String → Option String)
    (reg : Registry) (ws : Conn) (token boardId : Option String) :
    (handshake verify reg ws token boardId).sent = [] := by
  unfold handshake
  split
  · rfl
  · cases verify (token.getD "") with
    | none => rfl
    | some uid =>
      simp only
      split
      · rfl
      · rfl

/-- C5 counterexample: with no boards stored at all, a verified
handshake naming board "ghost" still places the connection in the
"ghost" connection set — contradicting that such a connection is never
given membership in any board's set. -/
theorem C5_counterexample :
    findBoard ghostStore "ghost" = none ∧
    ((handshake verifyDemo [] freshConn (some "tok") (some "ghost")).conn ∈
      getConns (handshake verifyDemo [] freshConn (some "tok") (some "ghost")).reg
        "ghost") := by
  decide

/-- C5 amended: the handshake admits every verified connection to the
requested board's set with no board-existence or access check; such a
connection receives every broadcast later issued for that board
identifier, and when the board does not exist in the store it receives
no events only because every mutation and reorder handler looks the
board up and therefore never broadcasts for an absent board. -/
theorem C5_amended_ghost_admission (verify : String → Option String)
    (reg : Registry) (ws : Conn) (tok uid bid : String)
    (hv : verify tok = some uid) (htok : tok ≠ "") (hbid : bid ≠ "")
    (s : Store) (hghost : findBoard s bid = none)
    (ops : List Op) (s' : Store) (outs : List (Nat × Message))
    (ht : Trace (handshake verify reg ws (some tok) (some bid)).reg s ops s' outs) :
    ((handshake verify reg ws (some tok) (some bid)).conn ∈
      getConns (handshake verify reg ws (some tok) (some bid)).reg bid) ∧
    (∀ cid m, (cid, m) ∈ outs → m.boardOf ≠ some bid) := by
  rw [handshake_admits verify reg ws tok uid bid hv htok hbid] at ht ⊢
  constructor
  · exact mem_getConns_addConn reg bid _
  · intro cid m hm hbo
    obtain ⟨b, hbo', hbf, -⟩ := trace_out_spec _ s ops s' outs ht cid m hm
    rw [hbo] at hbo'
    obtain rfl := Option.some.inj hbo'
    rw [hghost] at hbf
    simp at hbf

/-- Witness for the amended C5 on the empty trace over the ghost
store. -/
theorem C5_amended_witness :
    (handshake verifyDemo [] freshConn (some "tok") (some "ghost")).conn ∈
      getConns (handshake verifyDemo [] freshConn (some "tok") (some "ghost")).reg
        "ghost" :=
  (C5_amended_ghost_admission verifyDemo [] freshConn "tok" "u" "ghost" (by decide)
    (by decide) (by decide) ghostStore (by decide) [] ghostStore []
    (Trace.nil ghostStore)).1

/-- C6: applying a reorder batch updates only the column and order
fields of the task whose id matches a tuple within the claimed board;
a tuple naming a missing task or a task of another board is skipped
without rollback and without aborting the remaining tuples; and every
task matched by no tuple keeps all of its fields. -/
theorem C6_reorder_apply_frame (s : Store) (bid : String) (us : List ReorderTuple) :
    (∀ (i : Nat) (a b : Task), s.tasks[i]? = some a →
      ((applyReorder s bid us).tasks)[i]? = some b →
      b.id = a.id ∧ b.title = a.title ∧ b.description = a.description ∧
        b.createdAt = a.createdAt ∧ b.boardId = a.boardId) ∧
    (∀ (i : Nat) (a : Task), s.tasks[i]? = some a →
      (∀ u ∈ us, ¬(a.id = u.id ∧ a.boardId = bid)) →
      ((applyReorder s bid us).tasks)[i]? = some a) ∧
    (∀ (u : ReorderTuple) (ts : List Task),
      (∀ t ∈ ts, ¬(t.id = u.id ∧ t.boardId = bid)) →
      applyTuple bid ts u = ts) ∧
    (∀ (u : ReorderTuple) (us' : List ReorderTuple),
      applyReorder s bid (u :: us') =
        applyReorder { s with tasks := applyTuple bid s.tasks u } bid us') ∧
    (∀ (u : ReorderTuple) (ts : List Task) (i : Nat) (a : Task),
      ts[i]? = some a → a.id = u.id → a.boardId = bid →
      (∀ (j : Nat) (b : Task), j < i → ts[j]? = some b →
        ¬(b.id = u.id ∧ b.boardId = bid)) →
      (applyTuple bid ts u)[i]? =
        some { a with column := u.column, order := u.order }) := by
  refine ⟨?_, ?_, ?_, ?_, ?_⟩
  · intro i a b ha hb
    exact foldl_applyTuple_frame bid us s.tasks i a b ha hb
  · intro i a ha hno
    exact foldl_applyTuple_untouched bid us s.tasks i a ha hno
  · intro u ts h
    exact applyTuple_skip bid ts u h
  · intro u us'
    rfl
  · intro u ts i a ha hid hbd hfirst
    exact applyTuple_updates_first bid ts u i a ha hid hbd hfirst

/-- Witness for C6: a batch naming a task of no board leaves task A in
place. -/
theorem C6_witness :
    ((applyReorder scStore "B" [⟨"Z", Column.done, 5⟩]).tasks)[0]? = some taskA :=
  (C6_reorder_apply_frame scStore "B" [⟨"Z", Column.done, 5⟩]).2.1 0 taskA (by decide)
    (by decide)

/-- C7 counterexample: with two stored tasks X and Y sharing the same
(column, order) key, the same authorized reorder request admits two
different broadcasts — one listing X before Y and one listing Y before
X — so the republished ordering is not a deterministic function of the
stored task set: the code applies no secondary tie-break and MongoDB
leaves tie order unspecified. -/
theorem C7_counterexample :
    wsReorderRel tieStore scReg scConn tieMsg tieStore tieOut1 ∧
    wsReorderRel tieStore scReg scConn tieMsg tieStore tieOut2 ∧
    tieOut1 ≠ tieOut2 := by
  refine ⟨?_, ?_, by decide⟩
  · unfold wsReorderRel
    exact ite_prop_of_true (by decide)
      ⟨"B", [taskX, taskY], rfl, by decide, by decide, by decide⟩
  · unfold wsReorderRel
    exact ite_prop_of_true (by decide)
      ⟨"B", [taskY, taskX], rfl, by decide, by decide, by decide⟩

/-- C7 amended: the republished ordering is a deterministic, total
function of the stored task set whenever the claimed board's
post-write tasks carry pairwise-distinct (column, order) keys; with
tied keys the relative order is unspecified (the code has no secondary
tie-break), so two reads of the same stored state may differ. -/
theorem C7_amended_unique_given_distinct_keys
    (s : Store) (reg : Registry) (ws : Conn) (msg : ReorderMsg) (bid : String)
    (s₁ s₂ : Store) (out₁ out₂ : List (Nat × Message))
    (hbid : msg.boardId = some bid)
    (hk : ((applyReorder s bid msg.tasks).tasks.filter
      (fun t => t.boardId == bid)).Pairwise (fun a b => taskKey a ≠ taskKey b))
    (h₁ : wsReorderRel s reg ws msg s₁ out₁)
    (h₂ : wsReorderRel s reg ws msg s₂ out₂) :
    s₁ = s₂ ∧ out₁ = out₂ := by
  by_cases hauth : reorderAuth s ws msg = true
  · obtain ⟨b₁, c₁, hb₁, hs₁, hr₁, ho₁⟩ := wsReorderRel_auth_true _ _ _ _ _ _ hauth h₁
    obtain ⟨b₂, c₂, hb₂, hs₂, hr₂, ho₂⟩ := wsReorderRel_auth_true _ _ _ _ _ _ hauth h₂
    rw [hbid] at hb₁ hb₂
    obtain rfl := Option.some.inj hb₁
    obtain rfl := Option.some.inj hb₂
    rw [hs₁] at hr₁
    rw [hs₂] at hr₂
    have hc : c₁ = c₂ :=
      canonicalRead_unique (applyReorder s bid msg.tasks).tasks bid c₁ c₂ hk hr₁ hr₂
    refine ⟨hs₁.trans hs₂.symm, ?_⟩
    rw [ho₁, ho₂, hc]
  · have hf : reorderAuth s ws msg = false := by
      cases hx : reorderAuth s ws msg
      · rfl
      · exact absurd hx hauth
    obtain ⟨e₁, e₂⟩ := wsReorderRel_auth_false _ _ _ _ _ _ hf h₁
    obtain ⟨e₃, e₄⟩ := wsReorderRel_auth_false _ _ _ _ _ _ hf h₂
    exact ⟨e₁.trans e₃.symm, e₂.trans e₄.symm⟩

/-- Witness for the amended C7 on the worked scenario, whose post-write
keys are distinct. -/
theorem C7_amended_witness : scPost = scPost ∧ scOut = scOut :=
  C7_amended_unique_given_distinct_keys scStore scReg scConn scMsg "B" scPost scPost
    scOut scOut rfl (by decide) scRel scRel

/-- C8: over any interleaving of create, update, delete and reorder
operations on any boards, a connection whose id is registered only in
board b's set receives only messages carrying b's identifier — never
another board's identifier and never an init. -/
theorem C8_board_isolation (reg : Registry) (s s' : Store) (ops : List Op)
    (outs : List (Nat × Message)) (ht : Trace reg s ops s' outs)
    (cid : Nat) (b : String)
    (hone : ∀ b' c, c ∈ getConns reg b' → c.connId = cid → b' = b)
    (b₂ : String) (hne : b₂ ≠ b) (m : Message) (hm : (cid, m) ∈ outs) :
    m.boardOf = some b ∧ m.boardOf ≠ some b₂ := by
  obtain ⟨b', hbo, -, c, hc, hcid, -⟩ := trace_out_spec reg s ops s' outs ht cid m hm
  obtain rfl := hone b' c hc hcid
  refine ⟨hbo, ?_⟩
  rw [hbo]
  intro h
  exact hne (Option.some.inj h).symm

/-- Witness for C8: a one-step trace creating a task on board "b1"
delivers only "b1" events to connection 1. -/
theorem C8_witness :
    (Message.task_created w8task "b1").boardOf = some "b1" ∧
    (Message.task_created w8task "b1").boardOf ≠ some "b2" :=
  C8_board_isolation w8reg w8store (restCreate w8reg w8store w8req).1 [Op.create w8req]
    ((restCreate w8reg w8store w8req).2 ++ [])
    (Trace.cons w8store (restCreate w8reg w8store w8req).1
      (restCreate w8reg w8store w8req).1 (Op.create w8req) []
      (restCreate w8reg w8store w8req).2 [] (Step.create w8store w8req)
      (Trace.nil (restCreate w8reg w8store w8req).1))
    1 "b1" (fun b' c hc _ => (getConns_singleton "b1" [w8conn] b' c hc).1)
    "b2" (by decide) (Message.task_created w8task "b1") (by decide)

/-- C9: the handshake admits any verified connection to the requested
board's set on credential verification alone — the handler performs no
store lookup, hence no board-existence or access check — and the
connection thereafter receives every broadcast for that board. -/
theorem C9_handshake_admits_on_credential_alone (verify : String → Option String)
    (reg : Registry) (ws : Conn) (tok uid bid : String)
    (hv : verify tok = some uid) (htok : tok ≠ "") (hbid : bid ≠ "") :
    (handshake verify reg ws (some tok) (some bid)).accepted = true ∧
    (handshake verify reg ws (some tok) (some bid)).conn.userId = some uid ∧
    ((handshake verify reg ws (some tok) (some bid)).conn ∈
      getConns (handshake verify reg ws (some tok) (some bid)).reg bid) ∧
    ((handshake verify reg ws (some tok) (some bid)).conn.readyState = 1 →
      ∀ m, ((handshake verify reg ws (some tok) (some bid)).conn.connId, m) ∈
        broadcastToBoard (handshake verify reg ws (some tok) (some bid)).reg bid m) := by
  rw [handshake_admits verify reg ws tok uid bid hv htok hbid]
  refine ⟨rfl, rfl, mem_getConns_addConn reg bid _, ?_⟩
  intro hrs m
  exact broadcastToBoard_delivers _ bid m _ (mem_getConns_addConn reg bid _) hrs

/-- Witness for C9 with a board identifier naming no stored board. -/
theorem C9_witness :
    (handshake verifyDemo [] freshConn (some "tok") (some "ghost")).accepted = true :=
  (C9_handshake_admits_on_credential_alone verifyDemo [] freshConn "tok" "u" "ghost"
    (by decide) (by decide) (by decide)).1

/-- C10: reorder handling depends only on the inbound message's boardId
and the connection's authenticated userId — the relation is invariant
under any change of the connection's handshake-scoped board — and an
authorized request applies the batch and broadcasts the canonical
snapshot to the claimed board's connections. -/
theorem C10_reorder_ignores_handshake_scope (s : Store) (reg : Registry)
    (ws : Conn) (msg : ReorderMsg) (s' : Store) (out : List (Nat × Message))
    (b' : Option String) (bid : String) (hbid : msg.boardId = some bid) :
    (wsReorderRel s reg ws msg s' out ↔
      wsReorderRel s reg { ws with boardId := b' } msg s' out) ∧
    (reorderAuth s ws msg = true → wsReorderRel s reg ws msg s' out →
      s' = applyReorder s bid msg.tasks ∧
      ∃ canon, isCanonicalRead s'.tasks bid canon ∧
        out = broadcastToBoard reg bid (Message.tasks_reorder canon bid)) := by
  constructor
  · exact Iff.rfl
  · intro hauth hrel
    obtain ⟨b₁, canon, hb₁, hs, hread, hout⟩ :=
      wsReorderRel_auth_true _ _ _ _ _ _ hauth hrel
    rw [hbid] at hb₁
    obtain rfl := Option.some.inj hb₁
    exact ⟨hs, canon, hread, hout⟩

/-- Witness for C10: the scenario relation is unchanged when the
submitting connection's handshake scope is rewritten from "Z" to
"B". -/
theorem C10_witness :
    wsReorderRel scStore scReg scConnZ scMsg scPost scOut ↔
      wsReorderRel scStore scReg { scConnZ with boardId := some "B" } scMsg scPost
        scOut :=
  (C10_reorder_ignores_handshake_scope scStore scReg scConnZ scMsg scPost scOut
    (some "B") "B" rfl).1

end Taskback
